import Mathlib

/-
Verification development for the QR code generator utility (qr_generator.py).

The program is shallowly embedded: the URL plausibility regex is embedded as an
executable backtracking matcher over `List Char`; the third-party barcode
encoder and the raster library's opaque drawing primitives (font loading, text
measurement, text drawing) are modelled as an explicit bundle of collaborators
(`Prims`), with fallible operations returning `Except`; the filesystem is an
explicit state (`FS`) threaded through the pipeline.  Character classes model
the ASCII fragment of the regex classes (the `\w` class is modelled as ASCII
alphanumerics plus underscore).
-/

/-! ## Character classes of the plausibility regex -/

def apostropheChar : Char := Char.ofNat 39

def isWordChar (c : Char) : Bool :=
  c.isAlphanum || c = '_'

def domChar (c : Char) : Bool :=
  isWordChar c || c = '.' || c = '-'

def safeChar (c : Char) : Bool :=
  domChar c || c = '/' || c = '~' || c = ':' || c = '?' || c = '#' || c = '[' ||
  c = ']' || c = '@' || c = '!' || c = '$' || c = '&' || c = apostropheChar ||
  c = '(' || c = ')' || c = '*' || c = '+' || c = ',' || c = ';' || c = '='

/-! ## The matcher for the pattern of `is_plausible_url`

The source compiles the regex
`^(https?://)[\w\.-]+(?:\.[\w\.-]+)+[/\w\-._~:?#[\]@!$&'()*+,;=]*$`
with `re.IGNORECASE` and tests `pattern.match(url)`.  `plusSplits p cs` lists
every remainder reachable by consuming one or more `p`-characters (the
backtracking choices of a `+`); `dotGroupsMatch` matches
`(?:\.[\w\.-]+)+[...]*$`; `starDollar` matches `[...]*$`, where `$` in Python
also matches just before a single trailing newline. -/

def plusSplits (p : Char → Bool) : List Char → List (List Char)
  | [] => []
  | c :: cs => if p c then cs :: plusSplits p cs else []

def starDollar (cs : List Char) : Bool :=
  cs.all safeChar || (cs.getLast? = some '\n' && cs.dropLast.all safeChar)

def dotGroupsMatch : Nat → List Char → Bool
  | 0, _ => false
  | _ + 1, [] => false
  | fuel + 1, c :: cs =>
    c = '.' && (plusSplits domChar cs).any (fun r => starDollar r || dotGroupsMatch fuel r)

def matchAfterProto (cs : List Char) : Bool :=
  (plusSplits domChar cs).any (fun r1 => dotGroupsMatch r1.length r1)

def stripProto : List Char → Option (List Char)
  | c1 :: c2 :: c3 :: c4 :: rest =>
    if c1.toLower = 'h' && c2.toLower = 't' && c3.toLower = 't' && c4.toLower = 'p' then
      match rest with
      | ':' :: '/' :: '/' :: r => some r
      | c5 :: ':' :: '/' :: '/' :: r => if c5.toLower = 's' then some r else none
      | _ => none
    else none
  | _ => none

def is_plausible_url (url : String) : Bool :=
  match stripProto url.data with
  | some rest => matchAfterProto rest
  | none => false

/-! ## Declarative reading of the pattern, from the specification's words

The specification states the checker accepts exactly the strings matching
`^https?://[\w.-]+(?:\.[\w.-]+)+` followed by zero or more characters of the
fixed safe set, case-insensitively.  `DotGroups` is the language of
`(?:\.[\w.-]+)+`, `Trailing` the optional trailing newline admitted by a final
`$` in Python, and `SpecPlausible` the whole language. -/

inductive DotGroups : List Char → Prop where
  | one : ∀ b : List Char, b ≠ [] → (∀ c ∈ b, domChar c = true) → DotGroups ('.' :: b)
  | more : ∀ b rest : List Char, b ≠ [] → (∀ c ∈ b, domChar c = true) →
      DotGroups rest → DotGroups ('.' :: (b ++ rest))

def Trailing (n : List Char) : Prop := n = [] ∨ n = ['\n']

def TailSpec (cs : List Char) : Prop :=
  ∃ a g t n, cs = a ++ g ++ t ++ n ∧ a ≠ [] ∧ (∀ c ∈ a, domChar c = true) ∧
    DotGroups g ∧ (∀ c ∈ t, safeChar c = true) ∧ Trailing n

def ProtoOK (p : List Char) : Prop :=
  p.map Char.toLower = ("http://").data ∨ p.map Char.toLower = ("https://").data

def SpecPlausible (s : String) : Prop :=
  ∃ p rest, s.data = p ++ rest ∧ ProtoOK p ∧ TailSpec rest

/-! ## Image model

`Image` is a pixel grid with a colour mode, as manipulated by the raster
library: `convert` changes the mode, `Image.new` allocates a filled canvas,
`pasteTopLeft` pastes another image at coordinate (0,0).  The barcode encoder
may hand back either a wrapped image (exposing `get_image`) or a raw one. -/

inductive Color where
  | white : Color
  | black : Color
  | other : Nat → Color
deriving DecidableEq

structure Image where
  mode : String
  pix : List (List Color)
deriving DecidableEq

def Image.height (img : Image) : Nat := img.pix.length

def Image.width (img : Image) : Nat := (img.pix.headD []).length

def rgbMode : String := "RGB"

def Image.convert (img : Image) (m : String) : Image := { img with mode := m }

def Image.new (m : String) (w h : Nat) (col : Color) : Image :=
  ⟨m, List.replicate h (List.replicate w col)⟩

def Image.pasteTopLeft (canvas img : Image) : Image :=
  { canvas with pix := (img.pix ++ canvas.pix.drop img.height).take canvas.height }

inductive PilWrapped where
  | wrapped : Image → PilWrapped
  | plain : Image → PilWrapped

def PilWrapped.inner : PilWrapped → Image
  | .wrapped i => i
  | .plain i => i

/-- Model of `_ensure_pil_image`: unwrap the adapter's wrapper when the value exposes
`get_image` (the `try` branch), keep the value itself when it does not (the
`except` branch), then convert to RGB when the mode differs. -/
def ensure_pil_image (img_wrapped : PilWrapped) : Image :=
  let pil_img :=
    match img_wrapped with
    | .wrapped i => i
    | .plain i => i
  if pil_img.mode = rgbMode then pil_img else pil_img.convert rgbMode

/-! ## Filesystem model -/

def FilePath' : Type := List String
deriving instance DecidableEq for FilePath'

def pathString (p : FilePath') : String := String.intercalate ("/") p

def ancestors (p : FilePath') : List FilePath' :=
  (List.range (p.length + 1)).map (fun i => p.take i)

structure FS where
  dirs : List FilePath'
  files : List (FilePath' × Image)
deriving DecidableEq

def FS.mkdirParents (fs : FS) (p : FilePath') : FS :=
  { fs with dirs := ancestors p ++ fs.dirs }

def FS.lookup (fs : FS) (p : FilePath') : Option Image :=
  (fs.files.find? (fun e => decide (e.1 = p))).map (fun e => e.2)

/-! ## The external collaborators

`Prims` bundles the opaque third-party operations the program calls: the
barcode matrix encoder, default-font loading, the two text-measurement
primitives (`textbbox`, the legacy `textsize`) and text drawing — each of which
may fail — plus the writability of destination paths.  `draw_text_dims`
records that the raster library's text drawing never changes the dimensions or
mode of the canvas it draws on. -/

inductive ECLevel where
  | levelL : ECLevel
  | levelM : ECLevel
  | levelQ : ECLevel
  | levelH : ECLevel

structure EncodeParams where
  payload : String
  error_correction : ECLevel
  box_size : Nat
  border : Nat
  fill_color : Color
  back_color : Color

structure Font where
  id : Nat
deriving DecidableEq

structure Prims where
  make_image : EncodeParams → Except String PilWrapped
  load_default_font : Except String Font
  textbbox : String → Option Font → Except String (Int × Int × Int × Int)
  textsize : String → Option Font → Except String (Int × Int)
  draw_text : Image → Int × Int → String → Option Font → Except String Image
  writable : FilePath' → Bool
  draw_text_dims : ∀ img pos t f img2, draw_text img pos t f = Except.ok img2 →
    img2.height = img.height ∧ img2.width = img.width ∧ img2.mode = img.mode

def permDeniedMsg : String := "[Errno 13] Permission denied: "

def saveImage (P : Prims) (fs : FS) (p : FilePath') (img : Image) : Except String FS :=
  if P.writable p then Except.ok { fs with files := (p, img) :: fs.files }
  else Except.error (permDeniedMsg ++ pathString p)

/-! ## The generation pipeline (`generate_qr`) -/

def encodeParams (url : String) (box_size border : Nat) : EncodeParams :=
  { payload := url, error_correction := ECLevel.levelM, box_size := box_size,
    border := border, fill_color := Color.black, back_color := Color.white }

/-- QRCode construction, `add_data`, `make(fit=True)`, `make_image` and the
defensive unwrap, producing the normalized matrix image. -/
def matrixImage (P : Prims) (url : String) (box_size border : Nat) : Except String Image :=
  match P.make_image (encodeParams url box_size border) with
  | Except.ok img_wrapped => Except.ok (ensure_pil_image img_wrapped)
  | Except.error e => Except.error e

/-- Python truthiness test `not caption`: true for `None` and for `""`. -/
def pyFalsy : Option String → Bool
  | none => true
  | some s => s = ""

/-- Default font loading with the `try`/`except` of the source: on failure the
text is drawn with no explicit font. -/
def load_font (P : Prims) : Option Font :=
  match P.load_default_font with
  | Except.ok f => some f
  | Except.error _ => none

/-- The three-tier text measurement of the source: `draw.textbbox`, then the
legacy `draw.textsize`, then the heuristic of 6 pixels per character and a
fixed height of 12. -/
def measure_text (P : Prims) (text : String) (font : Option Font) : Int × Int :=
  match P.textbbox text font with
  | Except.ok (x0, y0, x1, y1) => (x1 - x0, y1 - y0)
  | Except.error _ =>
    match P.textsize text font with
    | Except.ok wh => wh
    | Except.error _ => (((text.length : Int)) * 6, 12)

/-- The caption branch of `generate_qr`: allocate the taller white canvas,
paste the matrix image at (0,0), measure the caption, centre it horizontally
(Python floor division) and draw it below the matrix. -/
def composeCaption (P : Prims) (qr_img : Image) (text : String) : Except String Image :=
  let draw_margin : Nat := 16
  let caption_height : Nat := 40
  let qr_width := qr_img.width
  let qr_height := qr_img.height
  let total_height := qr_height + caption_height + draw_margin * 2
  let canvas := (Image.new rgbMode qr_width total_height Color.white).pasteTopLeft qr_img
  let font := load_font P
  let measured := measure_text P text font
  let x := Int.fdiv ((qr_width : Int) - measured.1) 2
  let y := ((qr_height : Int)) + ((draw_margin : Int))
  P.draw_text canvas (x, y) text font

/-- Model of `generate_qr`: encode, normalize, optionally composite the caption, create
the parent directories and save.  Returns the filesystem after the call
together with the saved path or the propagated exception. -/
def finishSave (P : Prims) (fs : FS) (out_path : FilePath') (img : Image) :
    FS × Except String FilePath' :=
  match saveImage P (fs.mkdirParents out_path.dropLast) out_path img with
  | Except.error e => (fs.mkdirParents out_path.dropLast, Except.error e)
  | Except.ok fs2 => (fs2, Except.ok out_path)

def captionText : Option String → String
  | some t => t
  | none => ""

def generate_qr (P : Prims) (url : String) (out_path : FilePath')
    (box_size border : Nat) (caption : Option String) (fs : FS) :
    FS × Except String FilePath' :=
  match matrixImage P url box_size border with
  | Except.error e => (fs, Except.error e)
  | Except.ok qr_img =>
    if pyFalsy caption then
      finishSave P fs out_path qr_img
    else
      match composeCaption P qr_img (captionText caption) with
      | Except.error e => (fs, Except.error e)
      | Except.ok canvas => finishSave P fs out_path canvas

/-! ## The CLI driver (`main`) -/

structure Args where
  url : String
  out : FilePath' := ["qrs", "qr.png"]
  caption : Option String := none
  box_size : Nat := 10
  border : Nat := 4

structure MainResult where
  code : Nat
  fs : FS
  stdout : List String
  stderr : List String
deriving DecidableEq

def badUrlMsg (u : String) : String :=
  "[ERROR] The provided string does not look like a valid http(s) URL: " ++ u

def genFailMsg (e : String) : String :=
  "[ERROR] Failed to generate QR: " ++ e

def okMsg (p : FilePath') : String :=
  "[OK] QR code saved to: " ++ pathString p

/-- Model of `main`: validate the URL, run the pipeline under a single `except`, map
outcomes to exit codes 0/1/2.  All diagnostics use `print`, i.e. the standard
output stream; the model records standard output and standard error separately. -/
def main' (P : Prims) (args : Args) (fs : FS) : MainResult :=
  if ¬ is_plausible_url args.url then
    { code := 2, fs := fs, stdout := [badUrlMsg args.url], stderr := [] }
  else
    match generate_qr P args.url args.out args.box_size args.border args.caption fs with
    | (fs2, Except.error exc) =>
      { code := 1, fs := fs2, stdout := [genFailMsg exc], stderr := [] }
    | (fs2, Except.ok saved_path) =>
      { code := 0, fs := fs2, stdout := [okMsg saved_path], stderr := [] }

/-! ## Concrete collaborators used by the closed witnesses -/

def testMatrix : Image :=
  ⟨"1", [[Color.black, Color.white, Color.black],
         [Color.white, Color.black, Color.white],
         [Color.black, Color.white, Color.black]]⟩

def okDraw : Image → Int × Int → String → Option Font → Except String Image :=
  fun img _ _ _ => Except.ok img

def P0 : Prims where
  make_image := fun _ => Except.ok (PilWrapped.wrapped testMatrix)
  load_default_font := Except.ok ⟨0⟩
  textbbox := fun _ _ => Except.ok (0, 0, 10, 8)
  textsize := fun _ _ => Except.error ("textsize was removed")
  draw_text := okDraw
  writable := fun _ => true
  draw_text_dims := by
    intro img pos t f img2 h
    simp only [okDraw, Except.ok.injEq] at h
    subst h
    exact ⟨rfl, rfl, rfl⟩

def out0 : FilePath' := ["qrs", "qr.png"]

def fs0 : FS := ⟨[], []⟩

def PnoFont : Prims :=
  { P0 with
    load_default_font := Except.error ("cannot load default font"),
    textbbox := fun _ _ => Except.error ("textbbox not available"),
    textsize := fun _ _ => Except.error ("textsize not available") }

def PlegacySize : Prims :=
  { P0 with
    textbbox := fun _ _ => Except.error ("textbbox not available"),
    textsize := fun _ _ => Except.ok (14, 9) }

def Punwritable : Prims := { P0 with writable := fun _ => false }

def PencFail : Prims := { P0 with make_image := fun _ => Except.error ("data overflow") }

def PdrawFail : Prims :=
  { P0 with
    draw_text := fun _ _ _ _ => Except.error ("draw failed"),
    draw_text_dims := by intro img pos t f img2 h; exact Except.noConfusion h }

/-! ## Lemmas: the backtracking matcher agrees with the declarative language -/

theorem plusSplits_sound {p : Char → Bool} :
    ∀ {cs r : List Char}, r ∈ plusSplits p cs →
      ∃ a, cs = a ++ r ∧ a ≠ [] ∧ ∀ c ∈ a, p c = true := by
  intro cs
  induction cs with
  | nil => intro r hr; simp [plusSplits] at hr
  | cons c cs ih =>
    intro r hr
    by_cases hp : p c = true
    · simp only [plusSplits, if_pos hp, List.mem_cons] at hr
      rcases hr with rfl | hr
      · exact ⟨[c], rfl, by simp, by simp [hp]⟩
      · obtain ⟨a, rfl, ha, hall⟩ := ih hr
        refine ⟨c :: a, rfl, by simp, ?_⟩
        intro x hx
        rcases List.mem_cons.mp hx with rfl | hx
        · exact hp
        · exact hall x hx
    · simp [plusSplits, hp] at hr

theorem plusSplits_complete {p : Char → Bool} :
    ∀ (a r : List Char), a ≠ [] → (∀ c ∈ a, p c = true) → r ∈ plusSplits p (a ++ r) := by
  intro a
  induction a with
  | nil => intro r h _; exact absurd rfl h
  | cons c a ih =>
    intro r _ hall
    have hc : p c = true := hall c (List.mem_cons_self c a)
    have hstep : plusSplits p (c :: (a ++ r)) = (a ++ r) :: plusSplits p (a ++ r) := by
      simp [plusSplits, hc]
    by_cases ha : a = []
    · subst ha
      simp [plusSplits, hc]
    · have hmem := ih r ha (fun x hx => hall x (List.mem_cons_of_mem c hx))
      rw [List.cons_append, hstep]
      exact List.mem_cons_of_mem _ hmem

theorem starDollar_sound {cs : List Char} (h : starDollar cs = true) :
    ∃ t n, cs = t ++ n ∧ (∀ c ∈ t, safeChar c = true) ∧ Trailing n := by
  unfold starDollar at h
  rw [Bool.or_eq_true] at h
  rcases h with h | h
  · exact ⟨cs, [], by simp, List.all_eq_true.mp h, Or.inl rfl⟩
  · rw [Bool.and_eq_true] at h
    have h1 : cs.getLast? = some '\n' := of_decide_eq_true h.1
    have h2 := List.all_eq_true.mp h.2
    have hne : cs ≠ [] := by intro e; subst e; simp at h1
    have hcs : cs.dropLast ++ [cs.getLast hne] = cs := List.dropLast_append_getLast hne
    have hl : cs.getLast hne = '\n' := by
      have := List.getLast?_eq_getLast cs hne
      rw [h1] at this
      exact (Option.some.injEq _ _ ▸ this).symm
    refine ⟨cs.dropLast, ['\n'], ?_, h2, Or.inr rfl⟩
    rw [← hl]
    exact hcs.symm

theorem starDollar_complete (t n : List Char) (ht : ∀ c ∈ t, safeChar c = true)
    (hn : Trailing n) : starDollar (t ++ n) = true := by
  unfold starDollar
  rw [Bool.or_eq_true]
  rcases hn with rfl | rfl
  · left
    rw [List.append_nil]
    exact List.all_eq_true.mpr ht
  · right
    rw [Bool.and_eq_true]
    constructor
    · exact decide_eq_true (List.getLast?_concat t)
    · rw [List.dropLast_concat]
      exact List.all_eq_true.mpr ht

theorem dotGroupsMatch_sound :
    ∀ (fuel : Nat) (cs : List Char), dotGroupsMatch fuel cs = true →
      ∃ g t n, cs = g ++ t ++ n ∧ DotGroups g ∧ (∀ c ∈ t, safeChar c = true) ∧ Trailing n := by
  intro fuel
  induction fuel with
  | zero => intro cs h; simp [dotGroupsMatch] at h
  | succ fuel ih =>
    intro cs h
    cases cs with
    | nil => simp [dotGroupsMatch] at h
    | cons c cs' =>
      rw [show dotGroupsMatch (fuel + 1) (c :: cs') =
        (c = '.' && (plusSplits domChar cs').any
          (fun r => starDollar r || dotGroupsMatch fuel r)) from rfl] at h
      rw [Bool.and_eq_true] at h
      have hc : c = '.' := of_decide_eq_true h.1
      subst hc
      obtain ⟨r, hrmem, hr⟩ := List.any_eq_true.mp h.2
      obtain ⟨b, rfl, hbne, hball⟩ := plusSplits_sound hrmem
      rw [Bool.or_eq_true] at hr
      rcases hr with hstar | hrec
      · obtain ⟨t, n, rfl, htall, htr⟩ := starDollar_sound hstar
        exact ⟨'.' :: b, t, n, by simp, DotGroups.one b hbne hball, htall, htr⟩
      · obtain ⟨g, t, n, rfl, hg, htall, htr⟩ := ih r hrec
        exact ⟨'.' :: (b ++ g), t, n, by simp, DotGroups.more b g hbne hball hg, htall, htr⟩

theorem dotGroupsMatch_complete :
    ∀ (g : List Char), DotGroups g → ∀ (t n : List Char) (fuel : Nat),
      (∀ c ∈ t, safeChar c = true) → Trailing n → g.length ≤ fuel →
      dotGroupsMatch fuel (g ++ t ++ n) = true := by
  intro g hg
  induction hg with
  | one b hbne hball =>
    intro t n fuel ht hn hfuel
    cases fuel with
    | zero => simp at hfuel
    | succ f =>
      have heq : ('.' :: b) ++ t ++ n = '.' :: (b ++ (t ++ n)) := by simp
      rw [heq]
      rw [show dotGroupsMatch (f + 1) ('.' :: (b ++ (t ++ n))) =
        (('.' : Char) = '.' && (plusSplits domChar (b ++ (t ++ n))).any
          (fun r => starDollar r || dotGroupsMatch f r)) from rfl]
      rw [Bool.and_eq_true]
      refine ⟨by decide, List.any_eq_true.mpr ⟨t ++ n, plusSplits_complete b (t ++ n) hbne hball, ?_⟩⟩
      rw [Bool.or_eq_true]
      exact Or.inl (starDollar_complete t n ht hn)
  | more b rest hbne hball hrest ihrest =>
    intro t n fuel ht hn hfuel
    cases fuel with
    | zero => simp at hfuel
    | succ f =>
      have heq : ('.' :: (b ++ rest)) ++ t ++ n = '.' :: (b ++ (rest ++ t ++ n)) := by simp
      rw [heq]
      rw [show dotGroupsMatch (f + 1) ('.' :: (b ++ (rest ++ t ++ n))) =
        (('.' : Char) = '.' && (plusSplits domChar (b ++ (rest ++ t ++ n))).any
          (fun r => starDollar r || dotGroupsMatch f r)) from rfl]
      rw [Bool.and_eq_true]
      refine ⟨by decide, List.any_eq_true.mpr
        ⟨rest ++ t ++ n, plusSplits_complete b (rest ++ t ++ n) hbne hball, ?_⟩⟩
      rw [Bool.or_eq_true]
      refine Or.inr (ihrest t n f ht hn ?_)
      have : ('.' :: (b ++ rest)).length = 1 + b.length + rest.length := by
        simp [List.length_append]
        omega
      rw [this] at hfuel
      omega

theorem matchAfterProto_iff (cs : List Char) : matchAfterProto cs = true ↔ TailSpec cs := by
  constructor
  · intro h
    unfold matchAfterProto at h
    obtain ⟨r1, hmem, hr1⟩ := List.any_eq_true.mp h
    obtain ⟨a, rfl, hane, haall⟩ := plusSplits_sound hmem
    obtain ⟨g, t, n, rfl, hg, ht, hn⟩ := dotGroupsMatch_sound r1.length r1 hr1
    exact ⟨a, g, t, n, by simp, hane, haall, hg, ht, hn⟩
  · rintro ⟨a, g, t, n, rfl, hane, haall, hg, ht, hn⟩
    unfold matchAfterProto
    apply List.any_eq_true.mpr
    refine ⟨g ++ t ++ n, ?_, ?_⟩
    · have heq : a ++ g ++ t ++ n = a ++ (g ++ t ++ n) := by simp
      rw [heq]
      exact plusSplits_complete a _ hane haall
    · refine dotGroupsMatch_complete g hg t n (g ++ t ++ n).length ht hn ?_
      simp [List.length_append]

/-! ## Lemmas: case-insensitive protocol matching -/

theorem char_toNat_ofNat {n : Nat} (h : n.isValidChar) : (Char.ofNat n).toNat = n := by
  unfold Char.ofNat
  rw [dif_pos h]
  rfl

theorem char_eq_of_toNat_eq {c d : Char} (h : c.toNat = d.toNat) : c = d := by
  have hc := Char.ofNat_toNat c
  have hd := Char.ofNat_toNat d
  rw [← hc, ← hd, h]

theorem toLower_eq_iff (c l u : Char) (hval : l.toNat = u.toNat + 32)
    (hu : 65 ≤ u.toNat ∧ u.toNat ≤ 90) : c.toLower = l ↔ (c = l ∨ c = u) := by
  unfold Char.toLower
  simp only []
  constructor
  · intro h
    split at h
    · rename_i hc
      right
      have hvalid : (c.toNat + 32).isValidChar := by
        left
        omega
      have h2 := congrArg Char.toNat h
      rw [char_toNat_ofNat hvalid] at h2
      apply char_eq_of_toNat_eq
      omega
    · exact Or.inl h
  · intro h
    rcases h with h | h
    · subst h
      rw [if_neg]
      omega
    · subst h
      rw [if_pos hu]
      apply char_eq_of_toNat_eq
      rw [char_toNat_ofNat]
      · omega
      · left
        omega

theorem toLower_eq_sym (c l : Char) (hl : ¬ (65 ≤ l.toNat ∧ l.toNat ≤ 90))
    (hlow : l.toNat < 97 ∨ 122 < l.toNat) : c.toLower = l ↔ c = l := by
  unfold Char.toLower
  simp only []
  constructor
  · intro h
    split at h
    · rename_i hc
      exfalso
      have hvalid : (c.toNat + 32).isValidChar := by
        left
        omega
      have h2 := congrArg Char.toNat h
      rw [char_toNat_ofNat hvalid] at h2
      omega
    · exact h
  · intro h
    subst h
    rw [if_neg hl]

theorem toLower_colon (c : Char) : c.toLower = ':' ↔ c = ':' :=
  toLower_eq_sym c ':' (by decide) (by decide)

theorem toLower_slash (c : Char) : c.toLower = '/' ↔ c = '/' :=
  toLower_eq_sym c '/' (by decide) (by decide)

theorem toLower_h (c : Char) : c.toLower = 'h' ↔ (c = 'h' ∨ c = 'H') :=
  toLower_eq_iff c 'h' 'H' (by decide) (by decide)

theorem toLower_t (c : Char) : c.toLower = 't' ↔ (c = 't' ∨ c = 'T') :=
  toLower_eq_iff c 't' 'T' (by decide) (by decide)

theorem toLower_p (c : Char) : c.toLower = 'p' ↔ (c = 'p' ∨ c = 'P') :=
  toLower_eq_iff c 'p' 'P' (by decide) (by decide)

theorem toLower_s (c : Char) : c.toLower = 's' ↔ (c = 's' ∨ c = 'S') :=
  toLower_eq_iff c 's' 'S' (by decide) (by decide)

theorem http_data_eq : ("http://").data = ['h', 't', 't', 'p', ':', '/', '/'] := rfl

theorem https_data_eq : ("https://").data = ['h', 't', 't', 'p', 's', ':', '/', '/'] := rfl

theorem stripProto_iff (cs r : List Char) :
    stripProto cs = some r ↔ ∃ p, ProtoOK p ∧ cs = p ++ r := by
  constructor
  · intro h
    unfold stripProto at h
    split at h
    · rename_i c1 c2 c3 c4 rest
      split at h
      · rename_i hguard
        rw [Bool.and_eq_true, Bool.and_eq_true, Bool.and_eq_true] at hguard
        have h1 : c1.toLower = 'h' := of_decide_eq_true hguard.1.1.1
        have h2 : c2.toLower = 't' := of_decide_eq_true hguard.1.1.2
        have h3 : c3.toLower = 't' := of_decide_eq_true hguard.1.2
        have h4 : c4.toLower = 'p' := of_decide_eq_true hguard.2
        split at h
        · rw [Option.some.injEq] at h
          subst h
          refine ⟨[c1, c2, c3, c4, ':', '/', '/'], Or.inl ?_, rfl⟩
          rw [http_data_eq]
          simp [List.map_cons, h1, h2, h3, h4]
        · rename_i c5 r1
          split at h
          · rename_i h5
            have h5' : c5.toLower = 's' := h5
            rw [Option.some.injEq] at h
            subst h
            refine ⟨[c1, c2, c3, c4, c5, ':', '/', '/'], Or.inr ?_, rfl⟩
            rw [https_data_eq]
            simp [List.map_cons, h1, h2, h3, h4, h5']
          · exact absurd h (by simp)
        · exact absurd h (by simp)
      · exact absurd h (by simp)
    · exact absurd h (by simp)
  · rintro ⟨p, hp, rfl⟩
    rcases hp with hp | hp
    · rw [http_data_eq] at hp
      cases p with
      | nil => simp at hp
      | cons a1 p =>
        cases p with
        | nil => simp at hp
        | cons a2 p =>
          cases p with
          | nil => simp at hp
          | cons a3 p =>
            cases p with
            | nil => simp at hp
            | cons a4 p =>
              cases p with
              | nil => simp at hp
              | cons a5 p =>
                cases p with
                | nil => simp at hp
                | cons a6 p =>
                  cases p with
                  | nil => simp at hp
                  | cons a7 p =>
                    cases p with
                    | cons a8 p => simp at hp
                    | nil =>
                      simp only [List.map_cons, List.map_nil, List.cons.injEq, and_true] at hp
                      obtain ⟨k1, k2, k3, k4, k5, k6, k7⟩ := hp
                      rw [toLower_colon] at k5
                      rw [toLower_slash] at k6
                      rw [toLower_slash] at k7
                      subst k5; subst k6; subst k7
                      simp [stripProto, k1, k2, k3, k4]
    · rw [https_data_eq] at hp
      cases p with
      | nil => simp at hp
      | cons a1 p =>
        cases p with
        | nil => simp at hp
        | cons a2 p =>
          cases p with
          | nil => simp at hp
          | cons a3 p =>
            cases p with
            | nil => simp at hp
            | cons a4 p =>
              cases p with
              | nil => simp at hp
              | cons a5 p =>
                cases p with
                | nil => simp at hp
                | cons a6 p =>
                  cases p with
                  | nil => simp at hp
                  | cons a7 p =>
                    cases p with
                    | nil => simp at hp
                    | cons a8 p =>
                      cases p with
                      | cons a9 p => simp at hp
                      | nil =>
                        simp only [List.map_cons, List.map_nil, List.cons.injEq, and_true] at hp
                        obtain ⟨k1, k2, k3, k4, k5, k6, k7, k8⟩ := hp
                        rw [toLower_colon] at k6
                        rw [toLower_slash] at k7
                        rw [toLower_slash] at k8
                        subst k6; subst k7; subst k8
                        rw [toLower_s] at k5
                        rcases k5 with rfl | rfl
                        · simp [stripProto, k1, k2, k3, k4]
                        · simp [stripProto, k1, k2, k3, k4]

/-- C5: for every string, `is_plausible_url` returns true if and only if the
string matches `^https?://[\w.-]+(?:\.[\w.-]+)+` followed by zero or more
characters of the fixed safe path/query set, case-insensitively (with `$`
admitting one trailing newline, as Python's `re` does); for every
non-matching string it returns false. -/
theorem is_plausible_url_iff_spec (s : String) :
    is_plausible_url s = true ↔ SpecPlausible s := by
  unfold is_plausible_url SpecPlausible
  cases hsp : stripProto s.data with
  | none =>
    simp only []
    constructor
    · intro h
      exact absurd h (by simp)
    · rintro ⟨p, rest, hdata, hp, htail⟩
      have h2 : stripProto s.data = some rest := (stripProto_iff s.data rest).mpr ⟨p, hp, hdata⟩
      rw [hsp] at h2
      exact absurd h2 (by simp)
  | some rest =>
    simp only []
    constructor
    · intro h
      obtain ⟨p, hp, hdata⟩ := (stripProto_iff s.data rest).mp hsp
      exact ⟨p, rest, hdata, hp, (matchAfterProto_iff rest).mp h⟩
    · rintro ⟨p, rest2, hdata, hp, htail⟩
      have h2 : stripProto s.data = some rest2 := (stripProto_iff s.data rest2).mpr ⟨p, hp, hdata⟩
      rw [hsp, Option.some.injEq] at h2
      subst h2
      exact (matchAfterProto_iff rest).mpr htail

example : is_plausible_url ("https://example.com") = true := by decide
example : is_plausible_url ("https://x.com") = true := by decide
example : is_plausible_url ("not-a-url") = false := by decide
example : is_plausible_url ("HTTP://EXAMPLE.COM/a?b=c") = true := by decide
example : is_plausible_url ("http://nodot") = false := by decide
example : is_plausible_url ("ftp://example.com") = false := by decide


/-! ## Lemmas: pipeline behaviour -/

theorem pyFalsy_none : pyFalsy none = true := rfl

theorem pyFalsy_empty : pyFalsy (some ("")) = true := by decide

theorem pyFalsy_some_ne (s : String) (h : s ≠ "") : pyFalsy (some s) = false := by
  simp [pyFalsy, h]

theorem lookup_save (fs : FS) (p : FilePath') (img : Image) :
    FS.lookup { fs with files := (p, img) :: fs.files } p = some img := by
  unfold FS.lookup
  rw [List.find?_cons_of_pos]
  · rfl
  · simp

theorem mkdirParents_files (fs : FS) (p : FilePath') :
    (fs.mkdirParents p).files = fs.files := rfl

theorem finishSave_writable (P : Prims) (fs : FS) (out_path : FilePath') (img : Image)
    (hw : P.writable out_path = true) :
    finishSave P fs out_path img =
      ({ fs.mkdirParents out_path.dropLast with
         files := (out_path, img) :: (fs.mkdirParents out_path.dropLast).files },
       Except.ok out_path) := by
  unfold finishSave saveImage
  rw [if_pos hw]

theorem finishSave_unwritable (P : Prims) (fs : FS) (out_path : FilePath') (img : Image)
    (hw : ¬ P.writable out_path = true) :
    finishSave P fs out_path img =
      (fs.mkdirParents out_path.dropLast,
       Except.error (permDeniedMsg ++ pathString out_path)) := by
  unfold finishSave saveImage
  rw [if_neg hw]

theorem finishSave_ok (P : Prims) (fs : FS) (out_path : FilePath') (img : Image)
    (fs2 : FS) (pth : FilePath')
    (h : finishSave P fs out_path img = (fs2, Except.ok pth)) :
    P.writable out_path = true ∧ pth = out_path ∧
      fs2 = { fs.mkdirParents out_path.dropLast with
              files := (out_path, img) :: (fs.mkdirParents out_path.dropLast).files } := by
  by_cases hw : P.writable out_path = true
  · rw [finishSave_writable P fs out_path img hw] at h
    rw [Prod.mk.injEq, Except.ok.injEq] at h
    exact ⟨hw, h.2.symm, h.1.symm⟩
  · rw [finishSave_unwritable P fs out_path img hw] at h
    rw [Prod.mk.injEq] at h
    exact absurd h.2 (by simp)

theorem finishSave_error_fs (P : Prims) (fs : FS) (out_path : FilePath') (img : Image)
    (fs2 : FS) (e : String)
    (h : finishSave P fs out_path img = (fs2, Except.error e)) :
    fs2.files = fs.files := by
  by_cases hw : P.writable out_path = true
  · rw [finishSave_writable P fs out_path img hw] at h
    rw [Prod.mk.injEq] at h
    exact absurd h.2 (by simp)
  · rw [finishSave_unwritable P fs out_path img hw] at h
    rw [Prod.mk.injEq] at h
    rw [← h.1]
    exact mkdirParents_files fs out_path.dropLast

/-- Success of the captionless pipeline, decomposed. -/
theorem generate_qr_ok_none (P : Prims) (url : String) (out_path : FilePath')
    (box_size border : Nat) (fs fs2 : FS) (pth : FilePath')
    (h : generate_qr P url out_path box_size border none fs = (fs2, Except.ok pth)) :
    ∃ qi, matrixImage P url box_size border = Except.ok qi ∧
      P.writable out_path = true ∧ pth = out_path ∧
      fs2 = { fs.mkdirParents out_path.dropLast with
              files := (out_path, qi) :: (fs.mkdirParents out_path.dropLast).files } := by
  unfold generate_qr at h
  cases hM : matrixImage P url box_size border with
  | error e =>
    simp only [hM] at h
    rw [Prod.mk.injEq] at h
    exact absurd h.2 (by simp)
  | ok qi =>
    simp only [hM] at h
    rw [if_pos (show pyFalsy none = true from rfl)] at h
    obtain ⟨hw, hp, hfs⟩ := finishSave_ok P fs out_path qi fs2 pth h
    exact ⟨qi, rfl, hw, hp, hfs⟩

/-- The captionless pipeline succeeds whenever the encoder succeeds and the
destination is writable. -/
theorem generate_qr_none_of (P : Prims) (url : String) (out_path : FilePath')
    (box_size border : Nat) (fs : FS) (qi : Image)
    (hM : matrixImage P url box_size border = Except.ok qi)
    (hw : P.writable out_path = true) :
    generate_qr P url out_path box_size border none fs =
      ({ fs.mkdirParents out_path.dropLast with
         files := (out_path, qi) :: (fs.mkdirParents out_path.dropLast).files },
       Except.ok out_path) := by
  unfold generate_qr
  simp only [hM]
  rw [if_pos (show pyFalsy none = true from rfl)]
  exact finishSave_writable P fs out_path qi hw

/-- Success of the caption pipeline, decomposed. -/
theorem generate_qr_ok_some (P : Prims) (url : String) (out_path : FilePath')
    (box_size border : Nat) (text : String) (fs fs2 : FS) (pth : FilePath')
    (hne : text ≠ "")
    (h : generate_qr P url out_path box_size border (some text) fs = (fs2, Except.ok pth)) :
    ∃ qi cv, matrixImage P url box_size border = Except.ok qi ∧
      composeCaption P qi text = Except.ok cv ∧
      P.writable out_path = true ∧ pth = out_path ∧
      fs2 = { fs.mkdirParents out_path.dropLast with
              files := (out_path, cv) :: (fs.mkdirParents out_path.dropLast).files } := by
  unfold generate_qr at h
  cases hM : matrixImage P url box_size border with
  | error e =>
    simp only [hM] at h
    rw [Prod.mk.injEq] at h
    exact absurd h.2 (by simp)
  | ok qi =>
    simp only [hM] at h
    rw [if_neg (by rw [pyFalsy_some_ne text hne]; simp)] at h
    cases hC : composeCaption P qi (captionText (some text)) with
    | error e =>
      simp only [hC] at h
      rw [Prod.mk.injEq] at h
      exact absurd h.2 (by simp)
    | ok cv =>
      simp only [hC] at h
      obtain ⟨hw, hp, hfs⟩ := finishSave_ok P fs out_path cv fs2 pth h
      exact ⟨qi, cv, rfl, hC, hw, hp, hfs⟩

/-- Any error leaving `generate_qr` leaves the recorded files untouched. -/
theorem generate_qr_error_files (P : Prims) (url : String) (out_path : FilePath')
    (box_size border : Nat) (caption : Option String) (fs fs2 : FS) (e : String)
    (h : generate_qr P url out_path box_size border caption fs = (fs2, Except.error e)) :
    fs2.files = fs.files := by
  unfold generate_qr at h
  cases hM : matrixImage P url box_size border with
  | error e2 =>
    simp only [hM] at h
    rw [Prod.mk.injEq] at h
    rw [← h.1]
  | ok qi =>
    simp only [hM] at h
    by_cases hf : pyFalsy caption = true
    · rw [if_pos hf] at h
      exact finishSave_error_fs P fs out_path qi fs2 e h
    · rw [if_neg hf] at h
      cases hC : composeCaption P qi (captionText caption) with
      | error e2 =>
        simp only [hC] at h
        rw [Prod.mk.injEq] at h
        rw [← h.1]
      | ok cv =>
        simp only [hC] at h
        exact finishSave_error_fs P fs out_path cv fs2 e h

theorem paste_new_height (qi : Image) (m : String) (h : Nat) (col : Color) :
    ((Image.new m qi.width h col).pasteTopLeft qi).height = h := by
  unfold Image.pasteTopLeft Image.new Image.height
  simp only [List.length_take, List.length_append, List.length_drop, List.length_replicate]
  omega

theorem paste_new_width (qi : Image) (m : String) (h : Nat) (col : Color) (hpos : 0 < h) :
    ((Image.new m qi.width h col).pasteTopLeft qi).width = qi.width := by
  unfold Image.pasteTopLeft Image.new Image.width Image.height
  cases qi.pix with
  | nil =>
    cases h with
    | zero => omega
    | succ k => simp [List.replicate_succ]
  | cons row rows =>
    cases h with
    | zero => omega
    | succ k =>
      simp only [List.length_replicate, List.cons_append, List.take_succ_cons, List.headD_cons]

theorem composeCaption_dims (P : Prims) (qi : Image) (text : String) (cv : Image)
    (h : composeCaption P qi text = Except.ok cv) :
    cv.height = qi.height + 72 ∧ cv.width = qi.width := by
  unfold composeCaption at h
  have hd := P.draw_text_dims _ _ _ _ _ h
  constructor
  · rw [hd.1, paste_new_height]
  · rw [hd.2.1, paste_new_width]
    omega

theorem ensure_props (w : PilWrapped) :
    (ensure_pil_image w).mode = rgbMode ∧
    (ensure_pil_image w).pix = w.inner.pix ∧
    (ensure_pil_image w).height = w.inner.height ∧
    (ensure_pil_image w).width = w.inner.width := by
  cases w with
  | wrapped i =>
    by_cases hm : i.mode = rgbMode
    · simp [ensure_pil_image, PilWrapped.inner, hm]
    · simp [ensure_pil_image, PilWrapped.inner, hm, Image.convert, Image.height, Image.width]
  | plain i =>
    by_cases hm : i.mode = rgbMode
    · simp [ensure_pil_image, PilWrapped.inner, hm]
    · simp [ensure_pil_image, PilWrapped.inner, hm, Image.convert, Image.height, Image.width]

/-- C6: in the caption compositor neither font loading nor text measurement
failures propagate: a font-loading failure yields drawing with no explicit
font, and measurement tries `textbbox`, then the legacy `textsize`, then the
6-pixels-per-character / 12-pixel heuristic, in that order, first success
wins, so measurement always returns. -/
theorem measurement_fallback_chain :
    (∀ (P : Prims) (text : String) (font : Option Font) (x0 y0 x1 y1 : Int),
      P.textbbox text font = Except.ok (x0, y0, x1, y1) →
      measure_text P text font = (x1 - x0, y1 - y0)) ∧
    (∀ (P : Prims) (text : String) (font : Option Font) (e : String) (w h : Int),
      P.textbbox text font = Except.error e →
      P.textsize text font = Except.ok (w, h) →
      measure_text P text font = (w, h)) ∧
    (∀ (P : Prims) (text : String) (font : Option Font) (e1 e2 : String),
      P.textbbox text font = Except.error e1 →
      P.textsize text font = Except.error e2 →
      measure_text P text font = ((text.length : Int) * 6, 12)) ∧
    (∀ (P : Prims) (e : String),
      P.load_default_font = Except.error e → load_font P = none) ∧
    (∀ (P : Prims) (f : Font),
      P.load_default_font = Except.ok f → load_font P = some f) := by
  refine ⟨?_, ?_, ?_, ?_, ?_⟩
  · intro P text font x0 y0 x1 y1 hb
    unfold measure_text
    simp only [hb]
  · intro P text font e w h hb hs
    unfold measure_text
    simp only [hb, hs]
  · intro P text font e1 e2 hb hs
    unfold measure_text
    simp only [hb, hs]
  · intro P e hf
    unfold load_font
    simp only [hf]
  · intro P f hf
    unfold load_font
    simp only [hf]

/-! ## The claims -/

/-- C9: the image normalizer never fails for either input representation: a
value exposing the wrapper's extraction operation is unwrapped, a raw image
passes through, the pixel grid and dimensions are preserved, and in both cases
the result is unconditionally in 3-channel RGB mode. -/
theorem ensure_pil_image_normalizes (w : PilWrapped) :
    (ensure_pil_image w).mode = rgbMode ∧
    (ensure_pil_image w).pix = w.inner.pix ∧
    (ensure_pil_image w).height = w.inner.height ∧
    (ensure_pil_image w).width = w.inner.width :=
  ensure_props w

/-- C4: every successful invocation with no caption saves exactly the
normalized matrix encoder output: the stored image is the unwrapped, RGB
normalized encoder image, whose dimensions equal the encoder's native output
dimensions — no canvas growth, no compositing. -/
theorem generate_qr_no_caption_saves_matrix (P : Prims) (url : String)
    (out_path : FilePath') (box_size border : Nat) (fs fs2 : FS) (pth : FilePath')
    (h : generate_qr P url out_path box_size border none fs = (fs2, Except.ok pth)) :
    ∃ w qi, P.make_image (encodeParams url box_size border) = Except.ok w ∧
      qi = ensure_pil_image w ∧ FS.lookup fs2 pth = some qi ∧
      qi.height = w.inner.height ∧ qi.width = w.inner.width := by
  obtain ⟨qi, hM, hw, hp, hfs⟩ :=
    generate_qr_ok_none P url out_path box_size border fs fs2 pth h
  subst hp
  subst hfs
  unfold matrixImage at hM
  cases hmk : P.make_image (encodeParams url box_size border) with
  | error e =>
    simp only [hmk] at hM
    exact absurd hM (by simp)
  | ok w =>
    simp only [hmk, Except.ok.injEq] at hM
    refine ⟨w, qi, rfl, hM.symm, lookup_save _ _ _, ?_, ?_⟩
    · rw [← hM]
      exact (ensure_props w).2.2.1
    · rw [← hM]
      exact (ensure_props w).2.2.2

/-- C4 witness: a concrete captionless run saves the normalized encoder
output unmodified. -/
theorem generate_qr_no_caption_saves_matrix_witness :
    ∃ w qi, P0.make_image (encodeParams ("https://example.com") 10 4) = Except.ok w ∧
      qi = ensure_pil_image w ∧
      FS.lookup (generate_qr P0 ("https://example.com") out0 10 4 none fs0).1 out0 = some qi ∧
      qi.height = w.inner.height ∧ qi.width = w.inner.width :=
  generate_qr_no_caption_saves_matrix P0 ("https://example.com") out0 10 4 fs0 _ out0 (by rfl)

/-- C3: every successful invocation with a non-empty caption saves an image
whose height is the matrix image's height + 40 (caption band) + 2 * 16
(margins) = matrix height + 72, and whose width equals the matrix image's
width. -/
theorem generate_qr_caption_dims (P : Prims) (url : String) (out_path : FilePath')
    (box_size border : Nat) (text : String) (fs fs2 : FS) (pth : FilePath')
    (hne : text ≠ "")
    (h : generate_qr P url out_path box_size border (some text) fs = (fs2, Except.ok pth)) :
    ∃ qi cv, matrixImage P url box_size border = Except.ok qi ∧
      FS.lookup fs2 pth = some cv ∧
      cv.height = qi.height + 40 + 2 * 16 ∧ cv.height = qi.height + 72 ∧
      cv.width = qi.width := by
  obtain ⟨qi, cv, hM, hC, hw, hp, hfs⟩ :=
    generate_qr_ok_some P url out_path box_size border text fs fs2 pth hne h
  subst hp
  subst hfs
  obtain ⟨hd1, hd2⟩ := composeCaption_dims P qi text cv hC
  exact ⟨qi, cv, hM, lookup_save _ _ _, by omega, hd1, hd2⟩

/-- C3 witness: a concrete captioned run saves a 3x3 matrix as a 3x75 image. -/
theorem generate_qr_caption_dims_witness :
    ∃ qi cv, matrixImage P0 ("https://example.com") 10 4 = Except.ok qi ∧
      FS.lookup (generate_qr P0 ("https://example.com") out0 10 4 (some ("hello")) fs0).1 out0 =
        some cv ∧
      cv.height = qi.height + 40 + 2 * 16 ∧ cv.height = qi.height + 72 ∧
      cv.width = qi.width :=
  generate_qr_caption_dims P0 ("https://example.com") out0 10 4 ("hello") fs0 _ out0
    (by decide) (by rfl)

/-- C1 counterexample: for the plausible URL https://example.com, running
`generate_qr` with the empty-string caption does not composite a caption
band — the output equals the missing-caption output, and its height is the
matrix height (3), not the taller caption canvas (3 + 40 + 2 * 16).  The
source guard `if not caption:` treats the empty string like `None`. -/
theorem empty_caption_counterexample :
    is_plausible_url ("https://example.com") = true ∧
    generate_qr P0 ("https://example.com") out0 10 4 (some ("")) fs0 =
      generate_qr P0 ("https://example.com") out0 10 4 none fs0 ∧
    (∃ img,
      FS.lookup (generate_qr P0 ("https://example.com") out0 10 4 (some ("")) fs0).1 out0 =
        some img ∧
      img.height = 3 ∧ ¬ img.height = 3 + 40 + 2 * 16) := by
  refine ⟨by decide, rfl, testMatrix.convert rgbMode, by rfl, by decide, by decide⟩

/-- C1 amended: for every URL that passes the plausibility check, calling
`generate_qr` with caption equal to the empty string is treated exactly like
a missing caption: no caption band is composited and the call behaves
identically to the caption-`None` call. -/
theorem generate_qr_empty_caption_eq_none (P : Prims) (url : String) (out_path : FilePath')
    (box_size border : Nat) (fs : FS) (hurl : is_plausible_url url = true) :
    generate_qr P url out_path box_size border (some ("")) fs =
      generate_qr P url out_path box_size border none fs := by
  unfold generate_qr
  cases hM : matrixImage P url box_size border with
  | error e => simp only [hM]
  | ok qi =>
    simp only [hM]
    rw [if_pos (show pyFalsy (some ("")) = true from by decide),
       if_pos (show pyFalsy none = true from rfl)]

/-- C1 amended witness. -/
theorem generate_qr_empty_caption_eq_none_witness :
    generate_qr P0 ("https://x.com") out0 10 4 (some ("")) fs0 =
      generate_qr P0 ("https://x.com") out0 10 4 none fs0 :=
  generate_qr_empty_caption_eq_none P0 ("https://x.com") out0 10 4 fs0 (by decide)

/-- C2 counterexample: for the argument vector whose --url value is not-a-url, `main`
returns exit code 2 and writes no file, but the diagnostic goes to standard
output (stderr stays empty), not to the error stream as claimed: the source
uses a plain `print`. -/
theorem main_invalid_url_counterexample :
    is_plausible_url ("not-a-url") = false ∧
    main' P0 { url := ("not-a-url") } fs0 =
      { code := 2, fs := fs0, stdout := [badUrlMsg ("not-a-url")], stderr := [] } ∧
    (main' P0 { url := ("not-a-url") } fs0).stderr = [] ∧
    ¬ (main' P0 { url := ("not-a-url") } fs0).stdout = [] := by
  refine ⟨by decide, rfl, rfl, by decide⟩

/-- C2 amended: for every argument vector whose --url value fails the
plausibility check, `main` prints the diagnostic to standard output (the
error stream stays empty), returns exit code 2, leaves the filesystem
untouched, and performs no generation step (the result is independent of the
collaborators `P`). -/
theorem main_invalid_url_exits_2 (P : Prims) (args : Args) (fs : FS)
    (h : is_plausible_url args.url = false) :
    main' P args fs =
      { code := 2, fs := fs, stdout := [badUrlMsg args.url], stderr := [] } := by
  unfold main'
  rw [if_pos (show ¬ is_plausible_url args.url = true by simp [h])]

/-- C2 amended witness. -/
theorem main_invalid_url_exits_2_witness :
    main' Punwritable { url := ("ftp://example.com") } fs0 =
      { code := 2, fs := fs0, stdout := [badUrlMsg ("ftp://example.com")], stderr := [] } :=
  main_invalid_url_exits_2 Punwritable { url := ("ftp://example.com") } fs0 (by decide)

/-- C7: for every invocation with a plausible URL, an exception anywhere in
the generation pipeline is caught exactly once in `main`, printed as a
diagnostic including the underlying cause, and mapped to exit code 1, with no
output file written. -/
theorem main_generation_error_exits_1 (P : Prims) (args : Args) (fs fs2 : FS) (e : String)
    (hurl : is_plausible_url args.url = true)
    (h : generate_qr P args.url args.out args.box_size args.border args.caption fs =
      (fs2, Except.error e)) :
    main' P args fs = { code := 1, fs := fs2, stdout := [genFailMsg e], stderr := [] } ∧
    fs2.files = fs.files := by
  refine ⟨?_,
    generate_qr_error_files P args.url args.out args.box_size args.border args.caption
      fs fs2 e h⟩
  unfold main'
  rw [if_neg (by simp [hurl])]
  simp only [h]

/-- C7 witness: an unwritable destination makes the concrete run return exit
code 1 with the cause in the diagnostic and no recorded file. -/
theorem main_generation_error_exits_1_witness :
    main' Punwritable { url := ("https://x.com") } fs0 =
      { code := 1, fs := fs0.mkdirParents out0.dropLast,
        stdout := [genFailMsg (permDeniedMsg ++ pathString out0)], stderr := [] } ∧
    (fs0.mkdirParents out0.dropLast).files = fs0.files :=
  main_generation_error_exits_1 Punwritable { url := ("https://x.com") } fs0
    (fs0.mkdirParents out0.dropLast) (permDeniedMsg ++ pathString out0)
    (by decide) (by rfl)

/-- C8: `generate_qr` is deterministic: a second run with identical arguments
(url, box size, border, no caption), started from the filesystem the first
run produced, succeeds at the same path and stores an image with identical
dimensions and identical pixel content (the very same image value). -/
theorem generate_qr_deterministic (P : Prims) (url : String) (out_path : FilePath')
    (box_size border : Nat) (fs fs1 : FS) (pth : FilePath')
    (h : generate_qr P url out_path box_size border none fs = (fs1, Except.ok pth)) :
    ∃ fs2 img, generate_qr P url out_path box_size border none fs1 = (fs2, Except.ok pth) ∧
      FS.lookup fs1 pth = some img ∧ FS.lookup fs2 pth = some img := by
  obtain ⟨qi, hM, hw, hp, hfs⟩ :=
    generate_qr_ok_none P url out_path box_size border fs fs1 pth h
  subst hp
  subst hfs
  exact ⟨_, qi, generate_qr_none_of _ _ _ _ _ _ qi hM hw,
    lookup_save _ _ _, lookup_save _ _ _⟩

/-- C8 witness: two successive concrete runs store the same image. -/
theorem generate_qr_deterministic_witness :
    ∃ fs2 img,
      generate_qr P0 ("https://example.com") out0 10 4 none
        (generate_qr P0 ("https://example.com") out0 10 4 none fs0).1 =
        (fs2, Except.ok out0) ∧
      FS.lookup (generate_qr P0 ("https://example.com") out0 10 4 none fs0).1 out0 = some img ∧
      FS.lookup fs2 out0 = some img :=
  generate_qr_deterministic P0 ("https://example.com") out0 10 4 fs0 _ out0 (by rfl)

/-- C10: `generate_qr` touches the filesystem only after encoding,
normalization and compositing have succeeded: if the encoder raises, or (with
a caption) the compositor raises, the call returns the filesystem completely
unchanged — no directory created, no file written. -/
theorem generate_qr_fs_unchanged_on_pipeline_error :
    (∀ (P : Prims) (url : String) (out_path : FilePath') (box_size border : Nat)
      (caption : Option String) (fs : FS) (e : String),
      P.make_image (encodeParams url box_size border) = Except.error e →
      generate_qr P url out_path box_size border caption fs = (fs, Except.error e)) ∧
    (∀ (P : Prims) (url : String) (out_path : FilePath') (box_size border : Nat)
      (text : String) (fs : FS) (qi : Image) (e : String),
      matrixImage P url box_size border = Except.ok qi →
      text ≠ "" →
      composeCaption P qi text = Except.error e →
      generate_qr P url out_path box_size border (some text) fs = (fs, Except.error e)) := by
  constructor
  · intro P url out_path box_size border caption fs e hmk
    unfold generate_qr matrixImage
    simp only [hmk]
  · intro P url out_path box_size border text fs qi e hM hne hC
    unfold generate_qr
    simp only [hM]
    rw [if_neg (by rw [pyFalsy_some_ne text hne]; simp)]
    simp only [captionText, hC]

/-- C10 witness: a failing encoder and a failing compositor each leave the
concrete filesystem untouched. -/
theorem generate_qr_fs_unchanged_on_pipeline_error_witness :
    generate_qr PencFail ("https://example.com") out0 10 4 none fs0 =
      (fs0, Except.error ("data overflow")) ∧
    generate_qr PdrawFail ("https://example.com") out0 10 4 (some ("hello")) fs0 =
      (fs0, Except.error ("draw failed")) :=
  ⟨generate_qr_fs_unchanged_on_pipeline_error.1 PencFail ("https://example.com") out0
      10 4 none fs0 ("data overflow") rfl,
   generate_qr_fs_unchanged_on_pipeline_error.2 PdrawFail ("https://example.com") out0
      10 4 ("hello") fs0 (testMatrix.convert rgbMode) ("draw failed") rfl (by decide) rfl⟩

/-- C6 witness: the three measurement tiers and the font fallback, each at a
concrete collaborator bundle. -/
theorem measurement_fallback_chain_witness :
    measure_text P0 ("hi") (some ⟨0⟩) = (10 - 0, 8 - 0) ∧
    measure_text PlegacySize ("hi") none = (14, 9) ∧
    measure_text PnoFont ("hi") none = ((("hi").length : Int) * 6, 12) ∧
    load_font PnoFont = none ∧
    load_font P0 = some ⟨0⟩ :=
  ⟨measurement_fallback_chain.1 P0 ("hi") (some ⟨0⟩) 0 0 10 8 rfl,
   measurement_fallback_chain.2.1 PlegacySize ("hi") none ("textbbox not available") 14 9 rfl rfl,
   measurement_fallback_chain.2.2.1 PnoFont ("hi") none ("textbbox not available")
     ("textsize not available") rfl rfl,
   measurement_fallback_chain.2.2.2.1 PnoFont ("cannot load default font") rfl,
   measurement_fallback_chain.2.2.2.2 P0 ⟨0⟩ rfl⟩
